import Mathlib

/-!
Shallow embedding of the MarketplacesPricesBot repository (bot.py, ozon.py,
wildberries.py, yandexmarket.py).  Pure string/arithmetic fragments of the
Python code are translated into executable Lean definitions; the stateful
per-product parsing loops become explicit state-passing functions.  Python
floats in the outlier test (`0.51 * m`, `0.41 * m`) are modelled exactly as
scaled integers (`51 * m` against `100 * ...`), and Python's `int(a / b)`
(truncation towards zero) is modelled by `Int.div`.
-/

/-- Python `str.lower()` restricted to the alphabets appearing in the data:
ASCII letters and the basic Cyrillic range (А..Я, Ё). -/
def pyLowerChar (c : Char) : Char :=
  if 'A' ≤ c ∧ c ≤ 'Z' then Char.ofNat (c.toNat + 32)
  else if 'А' ≤ c ∧ c ≤ 'Я' then Char.ofNat (c.toNat + 32)
  else if c = 'Ё' then 'ё'
  else c

/-- Python `str.lower()` on a whole string. -/
def pyLower (s : String) : String :=
  String.mk (s.data.map pyLowerChar)

/-- Python `str.replace(chr(34), '')`: drop every double-quote character. -/
def stripQuotes (s : String) : String :=
  String.mk (s.data.filter (fun c => c ≠ '\"'))

/-- Splitting a character list at every separator, keeping empty pieces
(structural recursion so that proofs can evaluate it). -/
def splitCharsAux (p : Char → Bool) : List Char → List Char → List (List Char)
  | [], acc => [acc.reverse]
  | c :: cs, acc =>
      if p c then acc.reverse :: splitCharsAux p cs []
      else splitCharsAux p cs (c :: acc)

/-- Python `str.split(sep)` for a one-character separator class: empty pieces are
kept, as Python does for an explicit separator. -/
def pySplit (p : Char → Bool) (s : String) : List String :=
  (splitCharsAux p s.data []).map String.mk

/-- Python `str.split()` with no argument: split on whitespace, dropping empty
pieces. -/
def splitWs (s : String) : List String :=
  (pySplit Char.isWhitespace s).filter (fun w => w ≠ "")

/-- Python `str.split('-')`. -/
def splitHyphen (s : String) : List String :=
  pySplit (fun c => c = '-') s

/-- The loop `for word in words: list_of_words += word.split('-')`. -/
def hyphenFlatten (ws : List String) : List String :=
  ws.flatMap splitHyphen

/-- Word list used by ozon.py line 70 and yandexmarket.py line 65:
`full_name.lower().replace(chr(34), '').split()`. -/
def normWords (name : String) : List String :=
  splitWs (stripQuotes (pyLower name))

/-- Name token set of ozon.py lines 70-73 (also yandexmarket.py 65-68). -/
def ozonNameTokens (name : String) : List String :=
  hyphenFlatten (normWords name)

/-- Name token set of wildberries.py lines 148-151:
`item['name'].lower().split()` — no quote stripping — then hyphen split. -/
def wbNameTokens (name : String) : List String :=
  hyphenFlatten (splitWs (pyLower name))

/-- The keyword loop shared by all three adapters: `flag` stays true iff
every keyword is a member of the token list. -/
def matchesKeywords (keyWords toks : List String) : Bool :=
  keyWords.all (fun k => decide (k ∈ toks))

/-- A Python `dict` from price value to link: insertion-ordered association
list with at most one entry per key.  (`PDict` rather than Python's plain
`dict` to avoid clashing with Mathlib names.) -/
abbrev PDict := List (Int × String)

/-- Assignment `d[k] = v` on a Python dict: overwriting keeps the original position and
replaces the value, a fresh key is appended. -/
def distInsert (d : PDict) (k : Int) (v : String) : PDict :=
  if d.any (fun p => p.1 = k) then
    d.map (fun p => if p.1 = k then (k, v) else p)
  else d ++ [(k, v)]

/-- Lookup `d[k]`, as an `Option` (lookup of a missing key raises in Python). -/
def distLookup (d : PDict) (k : Int) : Option String :=
  (d.find? (fun p => decide (p.1 = k))).map Prod.snd

/-- Key list `list(d.keys())` (insertion order). -/
def distKeys (d : PDict) : List Int :=
  d.map Prod.fst

/-- The sum `sum(d)`: Python sums the keys when iterating a dict. -/
def distSum (d : PDict) : Int :=
  (distKeys d).foldl (· + ·) 0

/-- The mean `int(sum(d) / len(d))`: exact quotient truncated towards zero. -/
def distMean (d : PDict) : Int :=
  Int.tdiv (distSum d) d.length

/-- The key maximum `max(d)` = maximum of the keys (`none` when empty: Python raises). -/
def distMax? (d : PDict) : Option Int :=
  match distKeys d with
  | [] => none
  | k :: ks => some (ks.foldl max k)

/-- The key minimum `min(d)` = minimum of the keys (`none` when empty: Python raises). -/
def distMin? (d : PDict) : Option Int :=
  match distKeys d with
  | [] => none
  | k :: ks => some (ks.foldl min k)

/-- ozon.py lines 81-82: `prices = [...span texts...][:2]`,
`full_price, discount_price = max(prices), min(prices)`.  The block's span
texts are modelled as already-parsed integers; `max`/`min` of an empty list
raise in Python (candidate dropped), hence `Option`. -/
def ozonExtract : List Int → Option (Int × Int)
  | [] => none
  | [a] => some (a, a)
  | a :: b :: _ => some (max a b, min a b)

/-- yandexmarket.py lines 76-81: all numeric price tokens found in the block
are collected, then `max(prices), min(prices)`. -/
def ymExtract : List Int → Option (Int × Int)
  | [] => none
  | a :: rest => some (rest.foldl max a, rest.foldl min a)

/-- wildberries.py line 159: `int(item['priceU'] / 100)`. -/
def wbFull (priceU : Int) : Int :=
  Int.tdiv priceU 100

/-- wildberries.py line 160: `int(item['salePriceU'] / 100)`. -/
def wbDisc (salePriceU : Int) : Int :=
  Int.tdiv salePriceU 100

/-- ozon.py line 88: the candidate is skipped iff
`middle_discount_price and discount_price + 0.51 * middle_discount_price <
middle_discount_price` (scaled by 100 to stay in integers). -/
def ozonRejects (middle discPrice : Int) : Bool :=
  middle != 0 && decide (100 * discPrice + 51 * middle < 100 * middle)

/-- yandexmarket.py line 87: same test with factor `0.41`. -/
def ymRejects (middle discPrice : Int) : Bool :=
  middle != 0 && decide (100 * discPrice + 41 * middle < 100 * middle)

/-- The three per-session price distributions shared by all adapters. -/
structure AggState where
  full_prices_list : PDict
  discount_prices_list : PDict
  discounts_list : PDict
deriving DecidableEq

/-- ozon.py lines 84-87 (also yandexmarket.py 83-86): the running mean of
the discounted-price distribution, `0` when it is empty. -/
def runningMiddle (discountPrices : PDict) : Int :=
  if discountPrices.isEmpty then 0 else distMean discountPrices

/-- Per-metric summary values of the `len(...) > 1` branch:
`max(d), d[max], int(sum(d)/len(d)), min(d), d[min]`. -/
structure MetricStats where
  maxV : Int
  linkMax : String
  mean : Int
  minV : Int
  linkMin : String
deriving DecidableEq

/-- The `max/mean/min` values with their links for one distribution; `none` when a
`max()`/`min()` call on an empty dict would raise. -/
def metricStats (d : PDict) : Option MetricStats :=
  match distMax? d, distMin? d with
  | some mx, some mn =>
      match distLookup d mx, distLookup d mn with
      | some lmx, some lmn => some ⟨mx, lmx, distMean d, mn, lmn⟩
      | _, _ => none
  | _, _ => none

/-- The three terminal outcomes of `run_parser` (ozon.py lines 177-224,
wildberries.py 324-372, yandexmarket.py 167-214). -/
inductive Outcome where
  | empty : Outcome
  | single (discPrice fullPrice discount : Int) (link : String) : Outcome
  | summary (dp fp dc : MetricStats) : Outcome
deriving DecidableEq

def outcomeIsSingle : Outcome → Bool
  | .single _ _ _ _ => true
  | _ => false

def outcomeIsSummary : Outcome → Bool
  | .summary _ _ _ => true
  | _ => false

/-- The terminal dispatch of `run_parser`: on `len(discount_prices_list)`
being `> 1`, `== 1` or `0`.  `none` models an uncaught exception (indexing
`keys()[0]` of an empty dict, or `max()` of an empty dict). -/
def summarize (st : AggState) : Option Outcome :=
  if st.discount_prices_list.length > 1 then
    match metricStats st.discount_prices_list, metricStats st.full_prices_list,
          metricStats st.discounts_list with
    | some a, some b, some c => some (.summary a b c)
    | _, _, _ => none
  else if st.discount_prices_list.length = 1 then
    match (distKeys st.discount_prices_list).head?, (distKeys st.full_prices_list).head?,
          (distKeys st.discounts_list).head? with
    | some d, some f, some c =>
        (distLookup st.discount_prices_list d).map (fun l => .single d f c l)
    | _, _, _ => none
  else some .empty

/-- One row of `products_list` (ozon.py lines 90-96, yandexmarket.py 89-95):
string fields default to the sentinel `"-"`, numeric fields stay at `"-"`
(here `none`) when the corresponding value is zero. -/
structure ProductRow where
  link : String
  artikul : String
  name : String
  seller : String
  full_price : Option Int
  disc_price : Option Int
  discount : Option Int
deriving DecidableEq

/-- Session state of `OzonParser` / `YandexMarketParser`: the three
distributions plus `products_list`. -/
structure SessionState where
  full_prices_list : PDict
  discount_prices_list : PDict
  discounts_list : PDict
  products_list : List ProductRow
deriving DecidableEq

def sessionAgg (st : SessionState) : AggState :=
  ⟨st.full_prices_list, st.discount_prices_list, st.discounts_list⟩

def emptySession : SessionState := ⟨[], [], [], []⟩

/-- One scraped product block of an Ozon search page, with the outcome of
its enrichment fetch (ozon.py line 97) and of the two enrichment parses
(lines 99-108): `none` models the caught parse exception. -/
structure OzonBlock where
  name : String
  link : String
  prices : List Int
  fetchOk : Bool
  idResult : Option String
  sellerResult : Option String

/-- The guard `if product_id: product_data['Артикул'] = product_id` — Python
truthiness: `None` and the empty string both leave the `"-"` sentinel. -/
def sentinelField : Option String → String
  | some s => if s ≠ "" then s else "-"
  | none => "-"

/-- The common tail of the per-candidate loop (ozon.py lines 113-122,
yandexmarket.py 110-119): conditional inserts into the three distributions
and the append to `products_list`. -/
def recordProduct (st : SessionState) (link artikul name seller : String)
    (fullPrice discPrice discount : Int) : SessionState :=
  ⟨(if fullPrice ≠ 0 then distInsert st.full_prices_list fullPrice link
    else st.full_prices_list),
   (if discPrice ≠ 0 then distInsert st.discount_prices_list discPrice link
    else st.discount_prices_list),
   (if discount ≠ 0 then distInsert st.discounts_list discount link
    else st.discounts_list),
   st.products_list ++ [⟨link, artikul, name, seller,
     (if fullPrice ≠ 0 then some fullPrice else none),
     (if discPrice ≠ 0 then some discPrice else none),
     (if discount ≠ 0 then some discount else none)⟩]⟩

/-- The body of `OzonParser.parse_page_content`'s per-block loop
(ozon.py lines 66-129).  Any Python exception path that drops the candidate
returns the state unchanged; in particular a failing enrichment page fetch
(line 97) propagates to the outer `except` at line 128. -/
def ozonProcessBlock (keyWords : List String) (st : SessionState)
    (b : OzonBlock) : SessionState :=
  if ¬ matchesKeywords keyWords (ozonNameTokens b.name) then st
  else match ozonExtract b.prices with
  | none => st
  | some (fullPrice, discPrice) =>
      if ozonRejects (runningMiddle st.discount_prices_list) discPrice then st
      else if ¬ b.fetchOk then st
      else recordProduct st b.link (sentinelField b.idResult) b.name
             (sentinelField b.sellerResult) fullPrice discPrice
             (fullPrice - discPrice)

/-- One scraped product block of a Yandex Market page; id/seller come from
the same markup, so there is no per-candidate enrichment fetch. -/
structure YMBlock where
  name : String
  link : String
  prices : List Int
  idResult : Option String
  sellerResult : Option String

/-- Python `str.isdigit()` (ASCII digits suffice here); false on `""`. -/
def pyIsDigit (s : String) : Bool :=
  s ≠ "" && s.data.all Char.isDigit

/-- The body of `YandexMarketParser.parse_page_content`'s per-block loop
(yandexmarket.py lines 62-121): the extra skip for names containing both
words `матрац` and `к` (line 74), the `0.41` outlier factor (line 87), and
the skuId digit check that drops the candidate (lines 97-99). -/
def ymProcessBlock (keyWords : List String) (st : SessionState)
    (b : YMBlock) : SessionState :=
  let ws := normWords b.name
  if ¬ matchesKeywords keyWords (hyphenFlatten ws) ∨ ("матрац" ∈ ws ∧ "к" ∈ ws) then st
  else match ymExtract b.prices with
  | none => st
  | some (fullPrice, discPrice) =>
      if ymRejects (runningMiddle st.discount_prices_list) discPrice then st
      else match b.idResult with
      | some s =>
          if ¬ pyIsDigit s then st
          else recordProduct st b.link s b.name (sentinelField b.sellerResult)
                 fullPrice discPrice (fullPrice - discPrice)
      | none =>
          recordProduct st b.link "-" b.name (sentinelField b.sellerResult)
            fullPrice discPrice (fullPrice - discPrice)

/-- One product entry of the WildBerries search-API payload
(wildberries.py lines 147-171; brand/rating/review pass-through row fields
are omitted, they are never read again). -/
structure WBItem where
  name : String
  id : Int
  priceU : Int
  salePriceU : Int
deriving DecidableEq

/-- The `'Продано'` field added by `get_sales_data`. -/
inductive SoldField where
  | qnt (n : Int) : SoldField
  | noData : SoldField
deriving DecidableEq

/-- One row of `product_cards` (wildberries.py lines 162-172), restricted to
the fields the claims read; `sold` is `none` until `get_sales_data` runs. -/
structure WBCard where
  link : String
  artikul : Int
  name : String
  priceFull : Int
  priceDisc : Int
  sold : Option SoldField
deriving DecidableEq

/-- Session state of `WildBerriesParser`. -/
structure WBState where
  product_cards : List WBCard
  full_prices_list : PDict
  discount_prices_list : PDict
  discounts_list : PDict
deriving DecidableEq

def wbAgg (st : WBState) : AggState :=
  ⟨st.full_prices_list, st.discount_prices_list, st.discounts_list⟩

def emptyWB : WBState := ⟨[], [], [], []⟩

/-- wildberries.py line 161. -/
def wbLink (id : Int) : String :=
  "https://www.wildberries.ru/catalog/" ++ toString id ++ "/detail.aspx"

/-- Whether an item passes the keyword filter (wildberries.py 148-158). -/
def wbItemMatches (keyWords : List String) (it : WBItem) : Bool :=
  matchesKeywords keyWords (wbNameTokens it.name)

/-- One iteration of `get_products_on_page`'s item loop (wildberries.py
lines 147-178): full and discounted price come from the separate payload
fields `priceU` and `salePriceU` — no `max`/`min` is applied. -/
def wbProcessItem (keyWords : List String) (st : WBState) (it : WBItem) : WBState :=
  if ¬ wbItemMatches keyWords it then st
  else
    let full := wbFull it.priceU
    let disc := wbDisc it.salePriceU
    let link := wbLink it.id
    ⟨st.product_cards ++ [⟨link, it.id, it.name, full, disc, none⟩],
     (if full ≠ 0 then distInsert st.full_prices_list full link
      else st.full_prices_list),
     (if disc ≠ 0 then distInsert st.discount_prices_list disc link
      else st.discount_prices_list),
     (if full - disc ≠ 0 then distInsert st.discounts_list (full - disc) link
      else st.discounts_list)⟩

/-- Result of fetching one numbered search page: `fail` models any exception
inside `add_data_from_page`'s `try` (wildberries.py lines 201-209), `page`
a successfully parsed `data.products` list. -/
inductive PageFetch where
  | fail : PageFetch
  | page (items : List WBItem) : PageFetch

/-- A page result that makes `add_data_from_page` return `True` (break):
a successful fetch none of whose items pass the keyword filter.  A failed
fetch returns `None` and does NOT stop the loop. -/
def stopsCrawl (keyWords : List String) : PageFetch → Bool
  | .fail => false
  | .page items => ! items.any (wbItemMatches keyWords)

/-- The loop `for page in range(1, 10): ... if self.add_data_from_page(url): break`
(wildberries.py lines 283-291), with `fuel` iterations left and `p` the next
page number.  Returns the final state and the list of fetched page numbers. -/
def wbCrawlFrom (keyWords : List String) (pages : Nat → PageFetch) :
    Nat → Nat → WBState → WBState × List Nat
  | 0, _, st => (st, [])
  | fuel + 1, p, st =>
      match pages p with
      | .fail =>
          ((wbCrawlFrom keyWords pages fuel (p + 1) st).1,
           p :: (wbCrawlFrom keyWords pages fuel (p + 1) st).2)
      | .page items =>
          if items.any (wbItemMatches keyWords) then
            ((wbCrawlFrom keyWords pages fuel (p + 1)
                (items.foldl (wbProcessItem keyWords) st)).1,
             p :: (wbCrawlFrom keyWords pages fuel (p + 1)
                (items.foldl (wbProcessItem keyWords) st)).2)
          else (items.foldl (wbProcessItem keyWords) st, [p])

/-- The driver `get_all_products_in_search_result`: pages are numbered from 1 and at
most 9 pages (`range(1, 10)`) are ever requested. -/
def wbCrawl (keyWords : List String) (pages : Nat → PageFetch)
    (st : WBState) : WBState × List Nat :=
  wbCrawlFrom keyWords pages 9 1 st

/-- Outcome of one sales-count request in `get_sales_data` (wildberries.py
lines 228-237): `ok` a parsed `response[0]['qnt']`, `timeout` a
`requests.ConnectTimeout` (the only caught exception), `err` any other
exception (propagates, aborting the whole pass). -/
inductive SalesRes where
  | ok (n : Int) : SalesRes
  | timeout : SalesRes
  | err : SalesRes

/-- The `for card in self.product_cards` loop of `get_sales_data`; the
`res` function gives the network/parse outcome for the card at each
position.  An `err` outcome aborts the loop (the exception is swallowed by
`run_parser`'s `try ... except: pass`), leaving the remaining cards — and
the failing one — without a `'Продано'` field. -/
def salesLoop (res : Nat → SalesRes) : Nat → List WBCard → List WBCard
  | _, [] => []
  | i, c :: rest =>
      match res i with
      | .ok n => { c with sold := some (.qnt n) } :: salesLoop res (i + 1) rest
      | .timeout => { c with sold := some .noData } :: salesLoop res (i + 1) rest
      | .err => c :: rest

/-- Events reaching the bot's dispatcher (bot.py): a plain text message
(`handle_product_description`) and a shop-choice callback (`handle_shop`). -/
inductive BotEvent where
  | msg (user : Nat) (text : String) : BotEvent
  | click (user : Nat) (shop : String) : BotEvent

/-- bot.py lines 24-53: the module-level `key_words` string is the only
state; a message from ANY user overwrites it, a recognised callback starts a
parser session for the clicking user with the CURRENT global value.
Returns the sessions started, as (user, query) pairs. -/
def botRun : String → List BotEvent → List (Nat × String)
  | _, [] => []
  | _, .msg _ t :: rest => botRun t rest
  | kw, .click u shop :: rest =>
      if shop = "wildberries" ∨ shop = "ozon" ∨ shop = "yandex_market" then
        (u, kw) :: botRun kw rest
      else botRun kw rest

/-- The tail of every adapter's `run_parser` (ozon.py lines 172-228):
`save_to_excel` creates the artifact file, the summary/single/empty message
is delivered, and only then `remove(table_path)` runs (in a `try` guarding
the `remove` itself, but NOT the delivery).  The filesystem is a list of
existing paths; the result flag records whether an exception escaped the
session (a crash inside `summarize`, or a failing delivery call). -/
def sessionTail (st : AggState) (deliveryFails : Bool) (fs : List String)
    (p : String) : List String × Bool :=
  let fs1 := p :: fs
  match summarize st with
  | none => (fs1, true)
  | some _ =>
      if deliveryFails then (fs1, true)
      else (fs1.filter (fun q => decide (q ≠ p)), false)

/-- What the `len(...) > 1` branch reports for one distribution, stated
extensionally: the maximum and minimum are keys bounding every key, their
links are the dict entries, and the mean is the truncated integer mean. -/
def statsOk (d : PDict) (m : MetricStats) : Prop :=
  m.maxV ∈ distKeys d ∧ m.minV ∈ distKeys d ∧
  (∀ x ∈ distKeys d, m.minV ≤ x ∧ x ≤ m.maxV) ∧
  distLookup d m.maxV = some m.linkMax ∧
  distLookup d m.minV = some m.linkMin ∧
  m.mean = distMean d

/-- The list `[p, p+1, ..., p+n-1]`. -/
def seqFrom : Nat → Nat → List Nat
  | _, 0 => []
  | p, n + 1 => p :: seqFrom (p + 1) n

/-- Page supply used to exhibit C6's failure-handling behaviour: page 1
fails to fetch, every later page parses to an empty product list. -/
def failThenEmpty : Nat → PageFetch :=
  fun n => if n = 1 then .fail else .page []

/-! Helper lemmas. -/

lemma matchesKeywords_iff (keyWords toks : List String) :
    matchesKeywords keyWords toks = true ↔ ∀ k ∈ keyWords, k ∈ toks := by
  simp [matchesKeywords, List.all_eq_true]

lemma matchesKeywords_perm {keyWords keyWords2 : List String}
    (h : keyWords.Perm keyWords2) (toks : List String) :
    matchesKeywords keyWords toks = matchesKeywords keyWords2 toks := by
  rw [Bool.eq_iff_iff, matchesKeywords_iff, matchesKeywords_iff]
  exact ⟨fun h' k hk => h' k (h.mem_iff.mpr hk), fun h' k hk => h' k (h.mem_iff.mp hk)⟩

lemma le_foldl_max : ∀ (l : List Int) (a : Int), a ≤ l.foldl max a
  | [], _ => le_refl _
  | x :: xs, a => le_trans (le_max_left a x) (le_foldl_max xs (max a x))

lemma mem_le_foldl_max : ∀ (l : List Int) (a x : Int), x ∈ l → x ≤ l.foldl max a
  | y :: ys, a, x, h => by
      simp only [List.foldl_cons]
      rcases List.mem_cons.mp h with h1 | h2
      · rw [h1]; exact le_trans (le_max_right a y) (le_foldl_max ys (max a y))
      · exact mem_le_foldl_max ys (max a y) x h2

lemma foldl_max_mem : ∀ (l : List Int) (a : Int), l.foldl max a = a ∨ l.foldl max a ∈ l
  | [], _ => Or.inl rfl
  | x :: xs, a => by
      rcases foldl_max_mem xs (max a x) with h | h
      · rcases max_choice a x with hm | hm
        · exact Or.inl (by rw [List.foldl_cons, h, hm])
        · exact Or.inr (by rw [List.foldl_cons, h, hm]; exact List.mem_cons_self x xs)
      · exact Or.inr (List.mem_cons_of_mem x h)

lemma foldl_min_le : ∀ (l : List Int) (a : Int), l.foldl min a ≤ a
  | [], _ => le_refl _
  | x :: xs, a => le_trans (foldl_min_le xs (min a x)) (min_le_left a x)

lemma foldl_min_le_mem : ∀ (l : List Int) (a x : Int), x ∈ l → l.foldl min a ≤ x
  | y :: ys, a, x, h => by
      simp only [List.foldl_cons]
      rcases List.mem_cons.mp h with h1 | h2
      · rw [h1]; exact le_trans (foldl_min_le ys (min a y)) (min_le_right a y)
      · exact foldl_min_le_mem ys (min a y) x h2

lemma foldl_min_mem : ∀ (l : List Int) (a : Int), l.foldl min a = a ∨ l.foldl min a ∈ l
  | [], _ => Or.inl rfl
  | x :: xs, a => by
      rcases foldl_min_mem xs (min a x) with h | h
      · rcases min_choice a x with hm | hm
        · exact Or.inl (by rw [List.foldl_cons, h, hm])
        · exact Or.inr (by rw [List.foldl_cons, h, hm]; exact List.mem_cons_self x xs)
      · exact Or.inr (List.mem_cons_of_mem x h)

lemma distMax?_mem {d : PDict} {m : Int} (h : distMax? d = some m) : m ∈ distKeys d := by
  unfold distMax? at h
  rcases hk : distKeys d with _ | ⟨k, ks⟩ <;> rw [hk] at h
  · exact absurd h (by simp)
  · rcases foldl_max_mem ks k with h1 | h1 <;>
      simp only [Option.some.injEq] at h <;> rw [← h]
    · rw [h1]; exact List.mem_cons_self k ks
    · exact List.mem_cons_of_mem k h1

lemma le_distMax? {d : PDict} {m x : Int} (h : distMax? d = some m)
    (hx : x ∈ distKeys d) : x ≤ m := by
  unfold distMax? at h
  rcases hk : distKeys d with _ | ⟨k, ks⟩ <;> rw [hk] at h
  · exact absurd h (by simp)
  · simp only [Option.some.injEq] at h
    rw [hk] at hx
    rcases List.mem_cons.mp hx with h1 | h1
    · exact h ▸ h1 ▸ le_foldl_max ks k
    · exact h ▸ mem_le_foldl_max ks k x h1

lemma distMin?_mem {d : PDict} {m : Int} (h : distMin? d = some m) : m ∈ distKeys d := by
  unfold distMin? at h
  rcases hk : distKeys d with _ | ⟨k, ks⟩ <;> rw [hk] at h
  · exact absurd h (by simp)
  · rcases foldl_min_mem ks k with h1 | h1 <;>
      simp only [Option.some.injEq] at h <;> rw [← h]
    · rw [h1]; exact List.mem_cons_self k ks
    · exact List.mem_cons_of_mem k h1

lemma distMin?_le {d : PDict} {m x : Int} (h : distMin? d = some m)
    (hx : x ∈ distKeys d) : m ≤ x := by
  unfold distMin? at h
  rcases hk : distKeys d with _ | ⟨k, ks⟩ <;> rw [hk] at h
  · exact absurd h (by simp)
  · simp only [Option.some.injEq] at h
    rw [hk] at hx
    rcases List.mem_cons.mp hx with h1 | h1
    · exact h ▸ h1 ▸ foldl_min_le ks k
    · exact h ▸ foldl_min_le_mem ks k x h1

lemma find?_map_replace (k : Int) (v : String) :
    ∀ d : PDict, d.any (fun p => p.1 = k) = true →
      (d.map (fun p => if p.1 = k then (k, v) else p)).find?
        (fun p => decide (p.1 = k)) = some (k, v)
  | (a, b) :: tl, h => by
      by_cases hk : a = k
      · simp [hk]
      · have htl : tl.any (fun p => p.1 = k) = true := by
          simp only [List.any_cons] at h
          rcases Bool.or_eq_true_iff.mp h with h1 | h1
          · exact absurd (of_decide_eq_true h1) hk
          · exact h1
        rw [List.map_cons, if_neg hk,
          List.find?_cons_of_neg _ (by simpa using hk)]
        exact find?_map_replace k v tl htl

lemma find?_append_new (k : Int) (v : String) :
    ∀ d : PDict, d.any (fun p => p.1 = k) = false →
      ((d ++ [(k, v)]).find? (fun p => decide (p.1 = k))) = some (k, v)
  | [], _ => by simp
  | (a, b) :: tl, h => by
      simp only [List.any_cons, Bool.or_eq_false_iff] at h
      have ha : ¬ a = k := by simpa using h.1
      rw [List.cons_append, List.find?_cons_of_neg _ (by simpa using ha)]
      exact find?_append_new k v tl h.2

/-- Inserting under `k` makes `k` map to the new link, whatever was there. -/
lemma distLookup_distInsert (d : PDict) (k : Int) (v : String) :
    distLookup (distInsert d k v) k = some v := by
  unfold distInsert distLookup
  by_cases h : d.any (fun p => p.1 = k) = true
  · rw [if_pos h, find?_map_replace k v d h]; rfl
  · rw [if_neg h, find?_append_new k v d (Bool.not_eq_true _ ▸ h)]; rfl

lemma distLookup_isSome_of_mem {d : PDict} {k : Int} (h : k ∈ distKeys d) :
    ∃ v, distLookup d k = some v := by
  induction d with
  | nil => exact absurd h (by simp [distKeys])
  | cons hd tl ih =>
      by_cases hk : hd.1 = k
      · exact ⟨hd.2, by simp [distLookup, List.find?, hk]⟩
      · have : k ∈ distKeys tl := by
          rcases List.mem_cons.mp h with h1 | h1
          · exact absurd h1.symm hk
          · exact h1
        rcases ih this with ⟨v, hv⟩
        exact ⟨v, by simpa [distLookup, List.find?, hk] using hv⟩

lemma metricStats_ok {d : PDict} {m : MetricStats}
    (h : metricStats d = some m) : statsOk d m := by
  unfold metricStats at h
  split at h
  case h_2 => exact absurd h (by simp)
  rename_i mx mn hmx hmn
  split at h
  case h_2 => exact absurd h (by simp)
  rename_i lmx lmn hlx hln
  simp only [Option.some.injEq] at h
  rw [← h]
  exact ⟨distMax?_mem hmx, distMin?_mem hmn,
    fun x hx => ⟨distMin?_le hmn hx, le_distMax? hmx hx⟩, hlx, hln, rfl⟩

lemma filter_ne_of_not_mem {p : String} :
    ∀ {fs : List String}, p ∉ fs → fs.filter (fun q => decide (q ≠ p)) = fs
  | [], _ => rfl
  | f :: tl, h => by
      have h1 : ¬ f = p := fun he => h (he ▸ List.mem_cons_self f tl)
      have h2 : p ∉ tl := fun ht => h (List.mem_cons_of_mem f ht)
      have hb : (decide (f ≠ p)) = true := decide_eq_true h1
      rw [List.filter_cons, hb]
      simp only [if_true]
      rw [filter_ne_of_not_mem h2]

lemma mem_seqFrom : ∀ (n p q : Nat), q ∈ seqFrom p n ↔ p ≤ q ∧ q < p + n
  | 0, p, q => by simp [seqFrom]
  | n + 1, p, q => by
      simp only [seqFrom, List.mem_cons, mem_seqFrom n (p + 1) q]
      omega

/-- Induction step shared by the two continuing branches of the crawl: the
properties of a fetched-pages list `L` for pages starting at `p + 1` lift to
`p :: L` when page `p` is not a stopping page. -/
lemma crawl_cons_spec (stops : Nat → Bool) (p fuel : Nat) (L : List Nat)
    (h1 : L = seqFrom (p + 1) L.length) (h2 : L.length ≤ fuel)
    (h3 : 1 ≤ fuel → L ≠ [])
    (h4 : ∀ q ∈ L.dropLast, stops q = false)
    (h5 : ∀ q ∈ L, stops q = false → q + 1 < p + 1 + fuel → q + 1 ∈ L)
    (hp : stops p = false) :
    (p :: L = seqFrom p (p :: L).length) ∧
    ((p :: L).length ≤ fuel + 1) ∧
    (1 ≤ fuel + 1 → p :: L ≠ []) ∧
    (∀ q ∈ (p :: L).dropLast, stops q = false) ∧
    (∀ q ∈ p :: L, stops q = false → q + 1 < p + (fuel + 1) →
      q + 1 ∈ p :: L) := by
  refine ⟨?_, by simpa using h2, fun _ => by simp, ?_, ?_⟩
  · simp only [List.length_cons, seqFrom, List.cons.injEq]
    exact ⟨trivial, h1⟩
  · intro q hq
    rcases L with _ | ⟨l0, ls⟩
    · simp at hq
    · rw [List.dropLast_cons_of_ne_nil (by simp)] at hq
      rcases List.mem_cons.mp hq with hh | hh
      · rw [hh]; exact hp
      · exact h4 q hh
  · intro q hq hstop hlt
    rcases List.mem_cons.mp hq with hh | hh
    · subst hh
      have hne : L ≠ [] := h3 (by omega)
      have hlen : 1 ≤ L.length := by
        rcases L with _ | _
        · exact absurd rfl hne
        · simp
      refine List.mem_cons_of_mem _ ?_
      rw [h1]
      exact (mem_seqFrom L.length (q + 1) (q + 1)).mpr ⟨le_refl _, by omega⟩
    · exact List.mem_cons_of_mem _ (h5 q hh hstop (by omega))

/-- The shape of the list of fetched page numbers: consecutive from the
start page, at most `fuel` long, nonempty when any fuel is left, no page
before the last is a stopping page, and after a fetched non-stopping page
the next page is fetched too (when fuel allows). -/
lemma wbCrawlFrom_spec (kw : List String) (pages : Nat → PageFetch) :
    ∀ (fuel p : Nat) (st : WBState),
      (wbCrawlFrom kw pages fuel p st).2 =
          seqFrom p (wbCrawlFrom kw pages fuel p st).2.length ∧
      (wbCrawlFrom kw pages fuel p st).2.length ≤ fuel ∧
      (1 ≤ fuel → (wbCrawlFrom kw pages fuel p st).2 ≠ []) ∧
      (∀ q ∈ (wbCrawlFrom kw pages fuel p st).2.dropLast,
        stopsCrawl kw (pages q) = false) ∧
      (∀ q ∈ (wbCrawlFrom kw pages fuel p st).2,
        stopsCrawl kw (pages q) = false → q + 1 < p + fuel →
          q + 1 ∈ (wbCrawlFrom kw pages fuel p st).2)
  | 0, p, st => by simp [wbCrawlFrom, seqFrom]
  | fuel + 1, p, st => by
      rcases hpg : pages p with _ | items
      · -- a failed fetch: the loop continues with page p+1
        have ih := wbCrawlFrom_spec kw pages fuel (p + 1) st
        simp only [wbCrawlFrom, hpg]
        exact crawl_cons_spec (fun q => stopsCrawl kw (pages q)) p fuel _
          ih.1 ih.2.1 ih.2.2.1 ih.2.2.2.1 ih.2.2.2.2
          (by show stopsCrawl kw (pages p) = false; rw [hpg]; rfl)
      · by_cases hm : items.any (wbItemMatches kw) = true
        · -- a page with matches: the loop continues with page p+1
          have ih := wbCrawlFrom_spec kw pages fuel (p + 1)
            (items.foldl (wbProcessItem kw) st)
          simp only [wbCrawlFrom, hpg]
          rw [if_pos hm]
          exact crawl_cons_spec (fun q => stopsCrawl kw (pages q)) p fuel _
            ih.1 ih.2.1 ih.2.2.1 ih.2.2.2.1 ih.2.2.2.2
            (by show stopsCrawl kw (pages p) = false; rw [hpg]
                simp [stopsCrawl, hm])
        · -- a successfully fetched page with no matching item: break
          have hm' : items.any (wbItemMatches kw) = false := by
            simpa using hm
          simp only [wbCrawlFrom, hpg]
          rw [if_neg hm]
          refine ⟨by simp [seqFrom], by simp, fun _ => by simp, by simp, ?_⟩
          intro q hq hstop _
          have hq' : q = p := by simpa using hq
          rw [hq', hpg] at hstop
          simp [stopsCrawl, hm'] at hstop

lemma wbDisc_le_wbFull {sp pu : Int} (h0 : 0 ≤ sp) (h : sp ≤ pu) :
    wbDisc sp ≤ wbFull pu := by
  unfold wbDisc wbFull
  rw [Int.tdiv_eq_ediv h0 (by decide), Int.tdiv_eq_ediv (le_trans h0 h) (by decide)]
  exact Int.ediv_le_ediv (by decide) h

lemma recordProduct_products (st : SessionState) (link a n s : String)
    (f d c : Int) :
    (recordProduct st link a n s f d c).products_list =
      st.products_list ++ [⟨link, a, n, s,
        (if f ≠ 0 then some f else none),
        (if d ≠ 0 then some d else none),
        (if c ≠ 0 then some c else none)⟩] := rfl

lemma recordProduct_full (st : SessionState) (link a n s : String)
    (f d c : Int) :
    (f ≠ 0 → distLookup (recordProduct st link a n s f d c).full_prices_list f
        = some link) ∧
    (f = 0 → (recordProduct st link a n s f d c).full_prices_list
        = st.full_prices_list) := by
  constructor
  · intro hf
    show distLookup (if f ≠ 0 then distInsert st.full_prices_list f link
      else st.full_prices_list) f = some link
    rw [if_pos hf]
    exact distLookup_distInsert _ _ _
  · intro hf
    show (if f ≠ 0 then distInsert st.full_prices_list f link
      else st.full_prices_list) = st.full_prices_list
    rw [if_neg (by simp [hf])]

lemma recordProduct_disc (st : SessionState) (link a n s : String)
    (f d c : Int) :
    (d ≠ 0 → distLookup (recordProduct st link a n s f d c).discount_prices_list d
        = some link) ∧
    (d = 0 → (recordProduct st link a n s f d c).discount_prices_list
        = st.discount_prices_list) := by
  constructor
  · intro hd
    show distLookup (if d ≠ 0 then distInsert st.discount_prices_list d link
      else st.discount_prices_list) d = some link
    rw [if_pos hd]
    exact distLookup_distInsert _ _ _
  · intro hd
    show (if d ≠ 0 then distInsert st.discount_prices_list d link
      else st.discount_prices_list) = st.discount_prices_list
    rw [if_neg (by simp [hd])]

lemma recordProduct_discount (st : SessionState) (link a n s : String)
    (f d c : Int) :
    (c ≠ 0 → distLookup (recordProduct st link a n s f d c).discounts_list c
        = some link) ∧
    (c = 0 → (recordProduct st link a n s f d c).discounts_list
        = st.discounts_list) := by
  constructor
  · intro hc
    show distLookup (if c ≠ 0 then distInsert st.discounts_list c link
      else st.discounts_list) c = some link
    rw [if_pos hc]
    exact distLookup_distInsert _ _ _
  · intro hc
    show (if c ≠ 0 then distInsert st.discounts_list c link
      else st.discounts_list) = st.discounts_list
    rw [if_neg (by simp [hc])]

/-- Full case analysis of the per-block Ozon loop body: either the
candidate was dropped and the state is untouched, or every gate passed and
the state change is exactly one `recordProduct`. -/
lemma ozonProcessBlock_eq (kw : List String) (st : SessionState) (b : OzonBlock) :
    ozonProcessBlock kw st b = st ∨
    ∃ fp dp, ozonExtract b.prices = some (fp, dp) ∧
      matchesKeywords kw (ozonNameTokens b.name) = true ∧
      ozonRejects (runningMiddle st.discount_prices_list) dp = false ∧
      b.fetchOk = true ∧
      ozonProcessBlock kw st b =
        recordProduct st b.link (sentinelField b.idResult) b.name
          (sentinelField b.sellerResult) fp dp (fp - dp) := by
  unfold ozonProcessBlock
  by_cases h1 : ¬ matchesKeywords kw (ozonNameTokens b.name) = true
  · left; rw [if_pos h1]
  rw [if_neg h1]
  rcases hx : ozonExtract b.prices with _ | ⟨fp, dp⟩
  · left; rfl
  by_cases h2 : ozonRejects (runningMiddle st.discount_prices_list) dp = true
  · left; dsimp only; rw [if_pos h2]
  by_cases h3 : ¬ b.fetchOk = true
  · left; dsimp only; rw [if_neg h2, if_pos h3]
  right
  refine ⟨fp, dp, rfl, not_not.mp h1, by simpa using h2, not_not.mp h3, ?_⟩
  dsimp only
  rw [if_neg h2, if_neg h3]

lemma ozonProcessBlock_accepted {kw : List String} {st : SessionState}
    {b : OzonBlock}
    (hacc : (ozonProcessBlock kw st b).products_list.length =
      st.products_list.length + 1) :
    ∃ fp dp, ozonExtract b.prices = some (fp, dp) ∧
      ozonProcessBlock kw st b =
        recordProduct st b.link (sentinelField b.idResult) b.name
          (sentinelField b.sellerResult) fp dp (fp - dp) := by
  rcases ozonProcessBlock_eq kw st b with h | ⟨fp, dp, hx, _, _, _, he⟩
  · rw [h] at hacc; omega
  · exact ⟨fp, dp, hx, he⟩

/-- The analogous case analysis for the WildBerries item loop. -/
lemma wbProcessItem_eq (kw : List String) (st : WBState) (it : WBItem) :
    wbProcessItem kw st it = st ∨
    (wbItemMatches kw it = true ∧
      wbProcessItem kw st it =
        ⟨st.product_cards ++ [⟨wbLink it.id, it.id, it.name,
            wbFull it.priceU, wbDisc it.salePriceU, none⟩],
         (if wbFull it.priceU ≠ 0 then
            distInsert st.full_prices_list (wbFull it.priceU) (wbLink it.id)
          else st.full_prices_list),
         (if wbDisc it.salePriceU ≠ 0 then
            distInsert st.discount_prices_list (wbDisc it.salePriceU) (wbLink it.id)
          else st.discount_prices_list),
         (if wbFull it.priceU - wbDisc it.salePriceU ≠ 0 then
            distInsert st.discounts_list
              (wbFull it.priceU - wbDisc it.salePriceU) (wbLink it.id)
          else st.discounts_list)⟩) := by
  unfold wbProcessItem
  by_cases h1 : ¬ wbItemMatches kw it = true
  · left; rw [if_pos h1]
  right
  exact ⟨not_not.mp h1, by rw [if_neg h1]⟩

lemma summarize_len0 {st : AggState} (h : st.discount_prices_list.length = 0) :
    summarize st = some .empty := by
  unfold summarize
  rw [if_neg (by omega), if_neg (by omega)]

lemma summarize_kind {st : AggState} {o : Outcome} (h : summarize st = some o) :
    (outcomeIsSingle o = true ↔ st.discount_prices_list.length = 1) ∧
    (outcomeIsSummary o = true ↔ st.discount_prices_list.length > 1) ∧
    (o = Outcome.empty ↔ st.discount_prices_list.length = 0) := by
  unfold summarize at h
  by_cases h1 : st.discount_prices_list.length > 1
  · rw [if_pos h1] at h
    split at h
    · rename_i a b c _ _ _
      simp only [Option.some.injEq] at h
      rw [← h]
      exact ⟨iff_of_false (by simp [outcomeIsSingle]) (by omega),
        iff_of_true (by simp [outcomeIsSummary]) h1,
        iff_of_false (by simp) (by omega)⟩
    · exact absurd h (by simp)
  · by_cases h2 : st.discount_prices_list.length = 1
    · rw [if_neg h1, if_pos h2] at h
      split at h
      · rename_i d f c _ _ _
        rcases hl : distLookup st.discount_prices_list d with _ | l <;> rw [hl] at h
        · exact absurd h (by simp)
        · simp only [Option.map_some', Option.some.injEq] at h
          rw [← h]
          exact ⟨iff_of_true (by simp [outcomeIsSingle]) h2,
            iff_of_false (by simp [outcomeIsSummary]) h1,
            iff_of_false (by simp) (by omega)⟩
      · exact absurd h (by simp)
    · rw [if_neg h1, if_neg h2] at h
      simp only [Option.some.injEq] at h
      rw [← h]
      exact ⟨iff_of_false (by simp [outcomeIsSingle]) h2,
        iff_of_false (by simp [outcomeIsSummary]) (by omega),
        iff_of_true rfl (by omega)⟩

lemma summarize_single {st : AggState} {d f c : Int} {l : String}
    (h : summarize st = some (.single d f c l)) :
    (distKeys st.discount_prices_list).head? = some d ∧
    (distKeys st.full_prices_list).head? = some f ∧
    (distKeys st.discounts_list).head? = some c ∧
    distLookup st.discount_prices_list d = some l := by
  unfold summarize at h
  by_cases h1 : st.discount_prices_list.length > 1
  · rw [if_pos h1] at h
    split at h
    · exact absurd h (by simp)
    · exact absurd h (by simp)
  · by_cases h2 : st.discount_prices_list.length = 1
    · rw [if_neg h1, if_pos h2] at h
      split at h
      · rename_i d' f' c' hd hf hc
        rcases hl : distLookup st.discount_prices_list d' with _ | l' <;> rw [hl] at h
        · exact absurd h (by simp)
        · simp only [Option.map_some', Option.some.injEq, Outcome.single.injEq] at h
          obtain ⟨hd1, hf1, hc1, hl1⟩ := h
          exact ⟨hd1 ▸ hd, hf1 ▸ hf, hc1 ▸ hc, hd1 ▸ hl1 ▸ hl⟩
      · exact absurd h (by simp)
    · rw [if_neg h1, if_neg h2] at h
      exact absurd h (by simp)

lemma summarize_summary {st : AggState} {a b c : MetricStats}
    (h : summarize st = some (.summary a b c)) :
    statsOk st.discount_prices_list a ∧ statsOk st.full_prices_list b ∧
    statsOk st.discounts_list c := by
  unfold summarize at h
  by_cases h1 : st.discount_prices_list.length > 1
  · rw [if_pos h1] at h
    split at h
    · rename_i a' b' c' ha hb hc
      simp only [Option.some.injEq, Outcome.summary.injEq] at h
      obtain ⟨h1', h2', h3'⟩ := h
      exact ⟨h1' ▸ metricStats_ok ha, h2' ▸ metricStats_ok hb, h3' ▸ metricStats_ok hc⟩
    · exact absurd h (by simp)
  · by_cases h2 : st.discount_prices_list.length = 1
    · rw [if_neg h1, if_pos h2] at h
      split at h
      · rename_i d' f' c' _ _ _
        rcases hl : distLookup st.discount_prices_list d' with _ | l' <;> rw [hl] at h
        · exact absurd h (by simp)
        · exact absurd h (by simp)
      · exact absurd h (by simp)
    · rw [if_neg h1, if_neg h2] at h
      exact absurd h (by simp)

/-- The sales pass never adds or removes cards and never touches the link,
id or price fields, whatever the per-card outcomes are. -/
lemma salesLoop_preserves (res : Nat → SalesRes) :
    ∀ (cards : List WBCard) (i : Nat),
      (salesLoop res i cards).length = cards.length ∧
      List.Forall₂ (fun c c' => c'.link = c.link ∧ c'.artikul = c.artikul ∧
        c'.priceFull = c.priceFull ∧ c'.priceDisc = c.priceDisc)
        cards (salesLoop res i cards)
  | [], i => by simp [salesLoop]
  | c :: rest, i => by
      unfold salesLoop
      rcases hres : res i with n | _ | _
      · have ih := salesLoop_preserves res rest (i + 1)
        exact ⟨by simp [ih.1], List.Forall₂.cons ⟨rfl, rfl, rfl, rfl⟩ ih.2⟩
      · have ih := salesLoop_preserves res rest (i + 1)
        exact ⟨by simp [ih.1], List.Forall₂.cons ⟨rfl, rfl, rfl, rfl⟩ ih.2⟩
      · exact ⟨rfl, List.Forall₂.cons ⟨rfl, rfl, rfl, rfl⟩
          (List.forall₂_same.mpr (fun x _ => ⟨rfl, rfl, rfl, rfl⟩))⟩

/-! Claim theorems. -/

/-- C7 (code_bug evidence): the module-level `key_words` in bot.py is shared
across users.  User 1 submits "lamp", user 2 then submits "fan"; when user 1
clicks the Ozon button, their session is started with user 2's query "fan",
and no session with user 1's own query "lamp" is ever started. -/
theorem c7_global_query_bug :
    botRun "" [.msg 1 "lamp", .msg 2 "fan", .click 1 "ozon"] = [(1, "fan")] ∧
    (1, "lamp") ∉ botRun "" [.msg 1 "lamp", .msg 2 "fan", .click 1 "ozon"] := by
  decide

/-- C10 (confirmed): in the Yandex Market adapter any candidate whose
lower-cased, quote-stripped, whitespace-split name words contain both
`матрац` and `к` is skipped outright — the state (distributions and
products list) is unchanged, whatever the keywords. -/
theorem c10_matrac_skip (keyWords : List String) (st : SessionState)
    (b : YMBlock) (h1 : "матрац" ∈ normWords b.name)
    (h2 : "к" ∈ normWords b.name) :
    ymProcessBlock keyWords st b = st := by
  unfold ymProcessBlock
  rw [if_pos (Or.inr ⟨h1, h2⟩)]

/-- Witness for C10 at a concrete matching candidate. -/
theorem c10_matrac_skip_witness :
    ymProcessBlock ["кровати"] emptySession
      ⟨"матрац к кровати", "L", [100], none, none⟩ = emptySession :=
  c10_matrac_skip ["кровати"] emptySession
    ⟨"матрац к кровати", "L", [100], none, none⟩ (by decide) (by decide)

/-- C4 (counterexample): the claim predicts that with running mean 100 a
discounted price of 49 is rejected and 51 accepted (factor 0.5).  The code
uses factor 0.51 on Ozon — which ACCEPTS 49 — and 0.41 on Yandex Market —
which REJECTS 51. -/
theorem c4_counterexample :
    ozonRejects 100 49 = false ∧ ymRejects 100 51 = true := by decide

/-- C4 (amended): the outlier filter rejects iff the running mean is
nonzero AND `100*d + factor_scaled*mean < 100*mean`, with factor 0.51 for
Ozon and 0.41 for Yandex Market; with mean 100 Ozon rejects exactly d ≤ 48
and Yandex Market exactly d ≤ 58; with mean 0 (nothing accepted yet, i.e.
`runningMiddle [] = 0`) every price passes. -/
theorem c4_amended (m d : Int) :
    (ozonRejects m d = true ↔ m ≠ 0 ∧ 100 * d + 51 * m < 100 * m) ∧
    (ymRejects m d = true ↔ m ≠ 0 ∧ 100 * d + 41 * m < 100 * m) ∧
    ozonRejects 0 d = false ∧ ymRejects 0 d = false ∧
    runningMiddle [] = 0 ∧
    ozonRejects (runningMiddle []) d = false ∧
    ymRejects (runningMiddle []) d = false ∧
    (ozonRejects 100 d = true ↔ d ≤ 48) ∧
    (ymRejects 100 d = true ↔ d ≤ 58) := by
  have h0 : runningMiddle [] = 0 := rfl
  refine ⟨?_, ?_, by simp [ozonRejects], by simp [ymRejects], h0,
    by rw [h0]; simp [ozonRejects], by rw [h0]; simp [ymRejects], ?_, ?_⟩ <;>
    simp only [ozonRejects, ymRejects, Bool.and_eq_true, bne_iff_ne, ne_eq,
      decide_eq_true_eq] <;>
    omega

/-- C3 (counterexample): the WildBerries keyword matcher does not strip
quote characters, so the name `"lamp"` (with literal double quotes) fails
the query `lamp` there, although the claim's quote-stripped token set (the
one Ozon and Yandex Market actually use) contains `lamp`. -/
theorem c3_counterexample :
    matchesKeywords ["lamp"] (wbNameTokens "\"lamp\"") = false ∧
    matchesKeywords ["lamp"] (ozonNameTokens "\"lamp\"") = true ∧
    "lamp" ∈ ozonNameTokens "\"lamp\"" := by decide

/-- C3 (amended): each adapter's matcher returns true iff every query token
is a member of that adapter's own name token set — with quote characters
stripped on Ozon and Yandex Market but NOT on WildBerries; an empty query
matches everything, and permuting the query tokens never changes any
adapter's result. -/
theorem c3_amended (keyWords : List String) (name : String) :
    (matchesKeywords keyWords (ozonNameTokens name) = true ↔
      ∀ k ∈ keyWords, k ∈ ozonNameTokens name) ∧
    (matchesKeywords keyWords (wbNameTokens name) = true ↔
      ∀ k ∈ keyWords, k ∈ wbNameTokens name) ∧
    matchesKeywords [] (ozonNameTokens name) = true ∧
    matchesKeywords [] (wbNameTokens name) = true ∧
    (∀ keyWords2, keyWords.Perm keyWords2 →
      matchesKeywords keyWords (ozonNameTokens name) =
        matchesKeywords keyWords2 (ozonNameTokens name) ∧
      matchesKeywords keyWords (wbNameTokens name) =
        matchesKeywords keyWords2 (wbNameTokens name)) :=
  ⟨matchesKeywords_iff _ _, matchesKeywords_iff _ _, rfl, rfl,
   fun _ h => ⟨matchesKeywords_perm h _, matchesKeywords_perm h _⟩⟩

/-- Witness for C3's permutation clause at a concrete query and name. -/
theorem c3_amended_witness :
    matchesKeywords ["вита", "2"] (ozonNameTokens "Вита-фон 2") =
      matchesKeywords ["2", "вита"] (ozonNameTokens "Вита-фон 2") ∧
    matchesKeywords ["вита", "2"] (wbNameTokens "Вита-фон 2") =
      matchesKeywords ["2", "вита"] (wbNameTokens "Вита-фон 2") :=
  (c3_amended ["вита", "2"] "Вита-фон 2").2.2.2.2 ["2", "вита"] (by decide)

/-- C9 (counterexample): when the delivery of the terminal message fails,
the exception propagates before `remove(table_path)` is reached, so the
exported artifact still exists after the session — the claim's "deleted on
every exit path" is false at this input. -/
theorem c9_counterexample :
    sessionTail ⟨[], [], []⟩ true [] "report.xlsx" = (["report.xlsx"], true) := rfl

/-- C9 (amended): the artifact is created and then deleted exactly on the
exit path where no exception escapes (delivery succeeded and the summary
computation did not raise); on a raising path the file persists.  When the
session ends cleanly the filesystem is restored to its initial state. -/
theorem c9_amended (st : AggState) (deliveryFails : Bool) (fs : List String)
    (p : String) (h : p ∉ fs) :
    ((sessionTail st deliveryFails fs p).2 = false →
      (sessionTail st deliveryFails fs p).1 = fs) ∧
    (p ∈ (sessionTail st deliveryFails fs p).1 ↔
      (sessionTail st deliveryFails fs p).2 = true) := by
  unfold sessionTail
  rcases hs : summarize st with _ | o
  · exact ⟨fun hf => absurd hf (by simp), by simp⟩
  · dsimp only
    rcases deliveryFails with _ | _
    · rw [if_neg Bool.false_ne_true]
      dsimp only
      have hfil : (p :: fs).filter (fun q => decide (q ≠ p)) = fs := by
        rw [List.filter_cons]
        have hd : (decide (p ≠ p)) = false := by simp
        rw [hd]
        simp only [Bool.false_eq_true, if_false]
        exact filter_ne_of_not_mem h
      rw [hfil]
      exact ⟨fun _ => rfl, iff_of_false h (by simp)⟩
    · rw [if_pos rfl]
      dsimp only
      exact ⟨fun hf => absurd hf (by simp), by simp⟩

/-- Witness for C9 at a clean session: the artifact is gone afterwards. -/
theorem c9_amended_witness :
    (sessionTail ⟨[], [], []⟩ false [] "a.xlsx").1 = [] ∧
    ("a.xlsx" ∈ (sessionTail ⟨[], [], []⟩ false [] "a.xlsx").1 ↔
      (sessionTail ⟨[], [], []⟩ false [] "a.xlsx").2 = true) :=
  ⟨(c9_amended ⟨[], [], []⟩ false [] "a.xlsx" (by simp)).1 rfl,
   (c9_amended ⟨[], [], []⟩ false [] "a.xlsx" (by simp)).2⟩

/-- C1 (counterexample): the WildBerries adapter does not apply the
max/min normalisation — full and discounted price come from the separate
payload fields `priceU` and `salePriceU` — so an accepted item with
`salePriceU > priceU` yields `discounted_price > full_price`. -/
theorem c1_counterexample :
    (wbProcessItem [] emptyWB ⟨"x", 5, 100, 300⟩).product_cards =
      [⟨"https://www.wildberries.ru/catalog/5/detail.aspx", 5, "x", 1, 3, none⟩] ∧
    ((1 : Int) < 3) := by decide

/-- C1 (amended): on Ozon (first two price tokens) and Yandex Market (all
collected price tokens) extraction assigns full = max and discounted = min,
so `discounted ≤ full` always holds there; on WildBerries the pair comes
from `priceU`/`salePriceU` and `discounted ≤ full` is only guaranteed when
`salePriceU ≤ priceU` (with nonnegative prices). -/
theorem c1_amended :
    (∀ (spans : List Int) (pr : Int × Int),
      ozonExtract spans = some pr → pr.2 ≤ pr.1) ∧
    (∀ (toks : List Int) (pr : Int × Int),
      ymExtract toks = some pr → pr.2 ≤ pr.1) ∧
    (∀ it : WBItem, 0 ≤ it.salePriceU → it.salePriceU ≤ it.priceU →
      wbDisc it.salePriceU ≤ wbFull it.priceU) := by
  refine ⟨?_, ?_, fun it h0 h => wbDisc_le_wbFull h0 h⟩
  · intro spans pr h
    rcases spans with _ | ⟨a, _ | ⟨b, rest⟩⟩
    · exact absurd h (by simp [ozonExtract])
    · simp only [ozonExtract, Option.some.injEq] at h
      rw [← h]
    · simp only [ozonExtract, Option.some.injEq] at h
      rw [← h]
      exact min_le_max
  · intro toks pr h
    rcases toks with _ | ⟨a, rest⟩
    · exact absurd h (by simp [ymExtract])
    · simp only [ymExtract, Option.some.injEq] at h
      rw [← h]
      exact le_trans (foldl_min_le rest a) (le_foldl_max rest a)

/-- Witness for C1 at concrete inputs for all three adapters. -/
theorem c1_amended_witness :
    ((800 : Int), (300 : Int)).2 ≤ ((800 : Int), (300 : Int)).1 ∧
    ((900 : Int), (250 : Int)).2 ≤ ((900 : Int), (250 : Int)).1 ∧
    wbDisc 200 ≤ wbFull 300 :=
  ⟨c1_amended.1 [300, 800] (800, 300) (by decide),
   c1_amended.2.1 [300, 900, 250] (900, 250) (by decide),
   c1_amended.2.2 ⟨"x", 1, 300, 200⟩ (by decide) (by decide)⟩

/-- C5 (counterexample): an accepted product (Ozon, first two price tokens
100 and 0) lands in `products_list` but has discounted price 0, so it is
absent from the discounted-price distribution — a case the claim's
"only a zero DISCOUNT is missing" carve-out does not cover. -/
theorem c5_counterexample :
    (ozonProcessBlock [] emptySession
      ⟨"x", "L1", [100, 0], true, none, none⟩).products_list.length = 1 ∧
    (ozonProcessBlock [] emptySession
      ⟨"x", "L1", [100, 0], true, none, none⟩).discount_prices_list = [] := by
  decide

/-- C5 (amended): for every accepted product, each of the three values
(full price, discounted price, discount) is inserted into its distribution
under the product's link iff that value is nonzero — a zero value (not only
a zero discount) produces no entry and leaves that distribution untouched;
insertion under an existing value replaces the stored link (`distLookup`
afterwards yields the later product's link). -/
theorem c5_amended :
    (∀ (keyWords : List String) (st : SessionState) (b : OzonBlock) (fp dp : Int),
      (ozonProcessBlock keyWords st b).products_list.length =
        st.products_list.length + 1 →
      ozonExtract b.prices = some (fp, dp) →
      ((fp ≠ 0 → distLookup (ozonProcessBlock keyWords st b).full_prices_list fp
          = some b.link) ∧
       (fp = 0 → (ozonProcessBlock keyWords st b).full_prices_list
          = st.full_prices_list)) ∧
      ((dp ≠ 0 → distLookup (ozonProcessBlock keyWords st b).discount_prices_list dp
          = some b.link) ∧
       (dp = 0 → (ozonProcessBlock keyWords st b).discount_prices_list
          = st.discount_prices_list)) ∧
      ((fp - dp ≠ 0 → distLookup (ozonProcessBlock keyWords st b).discounts_list
          (fp - dp) = some b.link) ∧
       (fp - dp = 0 → (ozonProcessBlock keyWords st b).discounts_list
          = st.discounts_list))) ∧
    (∀ (keyWords : List String) (st : WBState) (it : WBItem),
      (wbProcessItem keyWords st it).product_cards.length =
        st.product_cards.length + 1 →
      ((wbFull it.priceU ≠ 0 →
        distLookup (wbProcessItem keyWords st it).full_prices_list
          (wbFull it.priceU) = some (wbLink it.id)) ∧
       (wbDisc it.salePriceU ≠ 0 →
        distLookup (wbProcessItem keyWords st it).discount_prices_list
          (wbDisc it.salePriceU) = some (wbLink it.id)) ∧
       (wbFull it.priceU - wbDisc it.salePriceU ≠ 0 →
        distLookup (wbProcessItem keyWords st it).discounts_list
          (wbFull it.priceU - wbDisc it.salePriceU) = some (wbLink it.id)))) := by
  constructor
  · intro kw st b fp dp hacc hx
    obtain ⟨fp', dp', hx', he⟩ := ozonProcessBlock_accepted hacc
    rw [hx] at hx'
    simp only [Option.some.injEq, Prod.mk.injEq] at hx'
    obtain ⟨h1, h2⟩ := hx'
    subst h1; subst h2
    rw [he]
    exact ⟨recordProduct_full st b.link _ b.name _ fp dp (fp - dp),
      recordProduct_disc st b.link _ b.name _ fp dp (fp - dp),
      recordProduct_discount st b.link _ b.name _ fp dp (fp - dp)⟩
  · intro kw st it hacc
    rcases wbProcessItem_eq kw st it with hEq | ⟨_, he⟩
    · rw [hEq] at hacc; omega
    · rw [he]
      refine ⟨fun hne => ?_, fun hne => ?_, fun hne => ?_⟩ <;> dsimp only <;>
        rw [if_pos hne] <;> exact distLookup_distInsert _ _ _

/-- Witness for C5 at accepted Ozon and WildBerries products. -/
theorem c5_amended_witness :
    distLookup (ozonProcessBlock [] emptySession
      ⟨"x", "L1", [1000, 800], true, none, none⟩).full_prices_list 1000
      = some "L1" ∧
    distLookup (wbProcessItem [] emptyWB
      ⟨"x", 5, 100, 300⟩).full_prices_list (wbFull 100) = some (wbLink 5) :=
  ⟨(c5_amended.1 [] emptySession ⟨"x", "L1", [1000, 800], true, none, none⟩
      1000 800 (by decide) (by decide)).1.1 (by decide),
   (c5_amended.2 [] emptyWB ⟨"x", 5, 100, 300⟩ (by decide)).1 (by decide)⟩

/-- C8 (counterexample): a failing enrichment page fetch (ozon.py line 97)
raises into the outer per-candidate `except` and DROPS the candidate —
identical input with the fetch succeeding is accepted — whereas the claim
says the candidate stays with "unknown" sentinel fields. -/
theorem c8_counterexample :
    ozonProcessBlock [] emptySession
      ⟨"x", "L1", [1000, 800], false, none, none⟩ = emptySession ∧
    (ozonProcessBlock [] emptySession
      ⟨"x", "L1", [1000, 800], true, none, none⟩).products_list.length = 1 := by
  decide

/-- C8 (amended): per-candidate processing is append-only on the accepted
list; an id/seller PARSE failure keeps the candidate with the `"-"`
sentinels and the extracted prices, but an enrichment page FETCH failure
drops the candidate entirely; the WildBerries sales pass never adds or
removes cards and never alters link, id or price fields, whatever each
lookup's outcome. -/
theorem c8_amended :
    (∀ (keyWords : List String) (st : SessionState) (b : OzonBlock),
      ∃ t, (ozonProcessBlock keyWords st b).products_list =
        st.products_list ++ t) ∧
    (∀ (keyWords : List String) (st : SessionState) (b : OzonBlock),
      b.fetchOk = false → ozonProcessBlock keyWords st b = st) ∧
    (∀ (keyWords : List String) (st : SessionState) (b : OzonBlock) (fp dp : Int),
      b.idResult = none → b.sellerResult = none →
      (ozonProcessBlock keyWords st b).products_list.length =
        st.products_list.length + 1 →
      ozonExtract b.prices = some (fp, dp) →
      (ozonProcessBlock keyWords st b).products_list =
        st.products_list ++ [⟨b.link, "-", b.name, "-",
          (if fp ≠ 0 then some fp else none),
          (if dp ≠ 0 then some dp else none),
          (if fp - dp ≠ 0 then some (fp - dp) else none)⟩]) ∧
    (∀ (res : Nat → SalesRes) (cards : List WBCard) (i : Nat),
      (salesLoop res i cards).length = cards.length ∧
      List.Forall₂ (fun c c' => c'.link = c.link ∧ c'.artikul = c.artikul ∧
        c'.priceFull = c.priceFull ∧ c'.priceDisc = c.priceDisc)
        cards (salesLoop res i cards)) := by
  refine ⟨?_, ?_, ?_, fun res cards i => salesLoop_preserves res cards i⟩
  · intro kw st b
    rcases ozonProcessBlock_eq kw st b with h | ⟨fp, dp, _, _, _, _, he⟩
    · exact ⟨[], by rw [h]; simp⟩
    · exact ⟨_, by rw [he, recordProduct_products]⟩
  · intro kw st b hb
    unfold ozonProcessBlock
    by_cases h1 : ¬ matchesKeywords kw (ozonNameTokens b.name) = true
    · rw [if_pos h1]
    rw [if_neg h1]
    rcases hx : ozonExtract b.prices with _ | ⟨fp, dp⟩
    · rfl
    dsimp only
    by_cases h2 : ozonRejects (runningMiddle st.discount_prices_list) dp = true
    · rw [if_pos h2]
    rw [if_neg h2, if_pos (by rw [hb]; exact Bool.false_ne_true)]
  · intro kw st b fp dp hid hsell hacc hx
    obtain ⟨fp', dp', hx', he⟩ := ozonProcessBlock_accepted hacc
    rw [hx] at hx'
    simp only [Option.some.injEq, Prod.mk.injEq] at hx'
    obtain ⟨h1, h2⟩ := hx'
    subst h1; subst h2
    rw [he, recordProduct_products, hid, hsell]
    rfl

/-- Witness for C8: the fetch-failure drop and the sentinel row. -/
theorem c8_amended_witness :
    ozonProcessBlock [] emptySession
      ⟨"x", "L1", [1000, 800], false, none, none⟩ = emptySession ∧
    (ozonProcessBlock [] emptySession
      ⟨"x", "L1", [1000, 800], true, none, none⟩).products_list =
      [] ++ [⟨"L1", "-", "x", "-", some 1000, some 800, some 200⟩] :=
  ⟨c8_amended.2.1 [] emptySession ⟨"x", "L1", [1000, 800], false, none, none⟩ rfl,
   c8_amended.2.2.1 [] emptySession ⟨"x", "L1", [1000, 800], true, none, none⟩
     1000 800 rfl rfl (by decide) (by decide)⟩

/-- C2 (counterexample): two accepted products that share the discounted
price 800 collapse to a single key in the discounted-price distribution, so
the session ends in the SingleResult branch — not the Summary the claim
predicts for two accepted products — and the reported values mix the two
products (full price 1000 of the first, link L2 of the second). -/
theorem c2_counterexample :
    (ozonProcessBlock [] (ozonProcessBlock [] emptySession
        ⟨"x", "L1", [1000, 800], true, none, none⟩)
      ⟨"y", "L2", [1200, 800], true, none, none⟩).products_list.length = 2 ∧
    summarize (sessionAgg (ozonProcessBlock [] (ozonProcessBlock [] emptySession
        ⟨"x", "L1", [1000, 800], true, none, none⟩)
      ⟨"y", "L2", [1200, 800], true, none, none⟩)) =
      some (.single 800 1000 200 "L2") ∧
    outcomeIsSummary (.single 800 1000 200 "L2") = false := by decide

/-- C2 (amended): the terminal outcome is dispatched on the number of
DISTINCT NONZERO discounted-price values, not on the number of accepted
products: 0 keys → EmptyResult; 1 key → SingleResult reporting the
first-inserted key of each of the three distributions with the
discounted-price key's stored link; ≥ 2 keys → Summary whose per-metric
values are the key extremes with their stored links and the truncated
integer mean (`none` models the uncaught exception raised when the
full-price or discount distribution is empty in those branches). -/
theorem c2_amended (st : AggState) :
    (st.discount_prices_list.length = 0 → summarize st = some Outcome.empty) ∧
    (∀ o, summarize st = some o →
      (outcomeIsSingle o = true ↔ st.discount_prices_list.length = 1) ∧
      (outcomeIsSummary o = true ↔ st.discount_prices_list.length > 1) ∧
      (o = Outcome.empty ↔ st.discount_prices_list.length = 0)) ∧
    (∀ d f c l, summarize st = some (Outcome.single d f c l) →
      (distKeys st.discount_prices_list).head? = some d ∧
      (distKeys st.full_prices_list).head? = some f ∧
      (distKeys st.discounts_list).head? = some c ∧
      distLookup st.discount_prices_list d = some l) ∧
    (∀ a b c, summarize st = some (Outcome.summary a b c) →
      statsOk st.discount_prices_list a ∧ statsOk st.full_prices_list b ∧
      statsOk st.discounts_list c) :=
  ⟨fun h => summarize_len0 h, fun _ h => summarize_kind h,
   fun _ _ _ _ h => summarize_single h, fun _ _ _ h => summarize_summary h⟩

/-- Witness for C2 on empty, one-key and two-key sessions. -/
theorem c2_amended_witness :
    summarize ⟨[], [], []⟩ = some Outcome.empty ∧
    (outcomeIsSingle (Outcome.single 800 1000 200 "L1") = true ↔
      ((⟨[(1000, "L1")], [(800, "L1")], [(200, "L1")]⟩ :
        AggState)).discount_prices_list.length = 1) ∧
    distLookup [(800, "L1")] 800 = some "L1" ∧
    statsOk [(800, "L1"), (900, "L2")] ⟨900, "L2", 850, 800, "L1"⟩ :=
  ⟨(c2_amended ⟨[], [], []⟩).1 rfl,
   ((c2_amended ⟨[(1000, "L1")], [(800, "L1")], [(200, "L1")]⟩).2.1
     (Outcome.single 800 1000 200 "L1") (by decide)).1,
   ((c2_amended ⟨[(1000, "L1")], [(800, "L1")], [(200, "L1")]⟩).2.2.1
     800 1000 200 "L1" (by decide)).2.2.2,
   ((c2_amended ⟨[(1000, "L1"), (1200, "L2")], [(800, "L1"), (900, "L2")],
        [(200, "L1"), (300, "L2")]⟩).2.2.2
     ⟨900, "L2", 850, 800, "L1"⟩ ⟨1200, "L2", 1100, 1000, "L1"⟩
     ⟨300, "L2", 250, 200, "L1"⟩ (by decide)).1⟩

/-- C6 (counterexample): after the failed fetch of page 1 the loop does NOT
stop — page 2 is requested — contradicting the claim that a fetch failure
is treated as "no more pages". -/
theorem c6_counterexample :
    failThenEmpty 1 = PageFetch.fail ∧
    (wbCrawl [] failThenEmpty emptyWB).2 = [1, 2] := by
  exact ⟨rfl, by decide⟩

/-- C6 (amended): pages are fetched consecutively from 1, at most 9
(`range(1, 10)`); no page before the last fetched one is a stopping page (a
successfully parsed page with zero keyword matches); and a FETCH FAILURE
does not stop the loop — after any fetched non-stopping page (failures
included) the next page is fetched as long as the 9-page budget allows. -/
theorem c6_amended (kw : List String) (pages : Nat → PageFetch) (st : WBState) :
    (wbCrawl kw pages st).2 = seqFrom 1 (wbCrawl kw pages st).2.length ∧
    (wbCrawl kw pages st).2.length ≤ 9 ∧
    (∀ q ∈ (wbCrawl kw pages st).2.dropLast, stopsCrawl kw (pages q) = false) ∧
    (∀ q ∈ (wbCrawl kw pages st).2, stopsCrawl kw (pages q) = false →
      q + 1 < 10 → q + 1 ∈ (wbCrawl kw pages st).2) := by
  have h := wbCrawlFrom_spec kw pages 9 1 st
  exact ⟨h.1, h.2.1, h.2.2.2.1, fun q hq hs hlt => h.2.2.2.2 q hq hs (by omega)⟩

/-- Witness for C6: with the page-1 fetch failing, page 2 is fetched. -/
theorem c6_amended_witness :
    (2 : Nat) ∈ (wbCrawl [] failThenEmpty emptyWB).2 ∧
    (wbCrawl [] failThenEmpty emptyWB).2.length ≤ 9 :=
  ⟨(c6_amended [] failThenEmpty emptyWB).2.2.2 1 (by decide) (by decide)
     (by decide),
   (c6_amended [] failThenEmpty emptyWB).2.1⟩
